import Mathlib

/-
Verification of the call-site code generator (`FnCall` in
`winch/codegen/src/codegen/call.rs`).

The emitter itself (`FnCall.new`, `FnCall.emit`, `FnCall.assign_args`,
`FnCall.handle_result`) is translated directly from the source.  Its
collaborators (the ABI facts, the macro-assembler, the code-generation
context with its value stack and register allocator, and the helper
functions `align_to` / `calculate_frame_adjustment` /
`spill_regs_and_count_memory_in` / `move_val_to_reg`) live outside the
analysed file; each of those definitions is modelled from the spec and
marked as such in its doc comment.

Machine integers (`u32`) are modelled as `Nat`; stack-space arithmetic at
a call site stays far below `2^32`, and subtraction only occurs in
`free_stack`, mirroring the source's unsigned subtraction.  Fatal
assertions in the source are modelled by `Option`: a `panic!`/`assert!`
failure is `none`.
-/

set_option autoImplicit false

namespace WinchCall

/-- Modelled from the spec: operand sizes used by the move/store
primitives (the argument's "natural operand size"). -/
inductive OperandSize where
  | S32
  | S64
deriving DecidableEq, Repr

/-- Modelled from the spec: the source-language value types carried by
argument and result locations ("type + register identity"). -/
inductive WasmType where
  | I32
  | I64
deriving DecidableEq, Repr

/-- Modelled from the spec: the conversion `(*ty).into()` from a value
type to its operand size. -/
def WasmType.operandSize : WasmType → OperandSize
  | WasmType.I32 => OperandSize.S32
  | WasmType.I64 => OperandSize.S64

/-- Modelled from the spec, data model: a `Val` (one live operand) is
either register-resident or memory-resident (a byte offset relative to
the stack pointer).  Registers are identified by a number. -/
inductive Val where
  | reg (r : Nat)
  | mem (offset : Nat)
deriving DecidableEq, Repr

/-- Whether a value is register-resident. -/
def Val.isReg : Val → Bool
  | Val.reg _ => true
  | Val.mem _ => false

/-- Whether a value is memory-resident. -/
def Val.isMem : Val → Bool
  | Val.reg _ => false
  | Val.mem _ => true

/-- Modelled from the spec: an ABI argument location — *Register*
(type + register identity) or *Stack* (type + byte offset from the
stack-argument base). -/
inductive ABIArg where
  | Reg (ty : WasmType) (reg : Nat)
  | Stack (ty : WasmType) (offset : Nat)
deriving DecidableEq, Repr

/-- Modelled from the spec: an ABI result location — only a register
result or void is modelled at this layer. -/
inductive ABIResult where
  | void
  | Reg (ty : WasmType) (reg : Nat)
deriving DecidableEq, Repr

/-- The `is_void` query on a result location. -/
def ABIResult.is_void : ABIResult → Bool
  | ABIResult.void => true
  | ABIResult.Reg _ _ => false

/-- Modelled from the spec: a call signature — ordered argument
locations, a result location, and the raw (unaligned) byte size needed
by stack-passed arguments. -/
structure ABISig where
  params : List ABIArg
  result : ABIResult
  stack_bytes : Nat
deriving DecidableEq, Repr

/-- Modelled from the spec: the per-architecture calling-convention
facts — word size, call-site stack alignment, base offset for
stack-passed arguments, and the identity of the dedicated scratch
register. -/
structure ABI where
  word_bytes : Nat
  call_stack_align : Nat
  arg_base_offset : Nat
  scratch_reg : Nat
deriving DecidableEq, Repr

/-- Modelled from the spec: align a byte count up to the next multiple
of the given alignment. -/
def align_to (value alignment : Nat) : Nat :=
  (value + alignment - 1) / alignment * alignment

/-- Modelled from the spec: the frame-adjustment delta that pads the
current stack-pointer offset up to the required alignment for the point
where stack arguments begin. -/
def calculate_frame_adjustment (sp_offset arg_base_offset call_stack_align : Nat) : Nat :=
  let total := sp_offset + arg_base_offset
  align_to total call_stack_align - total

/-- Modelled from the spec: a stack-relative address, recording the
stack-pointer offset current when the address was computed and the byte
offset requested from it. -/
structure Address where
  base : Nat
  offset : Nat
deriving DecidableEq, Repr

/-- The kind of callee; this slice only emits direct calls to a
statically known index. -/
inductive CalleeKind where
  | Direct (callee : Nat)
deriving DecidableEq, Repr

/-- Modelled from the spec: the machine instructions the emitter can
produce, recorded as a trace so that placement properties can be stated
about exactly what was emitted. -/
inductive Instr where
  | push (r : Nat)
  | reserve (bytes : Nat)
  | free (bytes : Nat)
  | moveValToReg (v : Val) (dst : Nat) (size : OperandSize)
  | store (src : Nat) (dst : Address) (size : OperandSize)
  | call (k : CalleeKind)
deriving DecidableEq, Repr

/-- Modelled from the spec: the code-emission backend.  It tracks the
current stack-pointer offset (growing positive as the stack deepens) and
the instructions emitted so far. -/
structure Masm where
  sp_offset : Nat
  instrs : List Instr
deriving DecidableEq, Repr

/-- Modelled from the spec: reserve stack space (the stack-pointer
offset grows by the requested bytes). -/
def Masm.reserve_stack (m : Masm) (bytes : Nat) : Masm :=
  { sp_offset := m.sp_offset + bytes, instrs := m.instrs ++ [Instr.reserve bytes] }

/-- Modelled from the spec: free stack space (the stack-pointer offset
shrinks by the requested bytes). -/
def Masm.free_stack (m : Masm) (bytes : Nat) : Masm :=
  { sp_offset := m.sp_offset - bytes, instrs := m.instrs ++ [Instr.free bytes] }

/-- Modelled from the spec: push one register to the machine stack, one
word deep; used by spilling. -/
def Masm.push (m : Masm) (r : Nat) (word_bytes : Nat) : Masm :=
  { sp_offset := m.sp_offset + word_bytes, instrs := m.instrs ++ [Instr.push r] }

/-- Modelled from the spec: compute a stack-relative address at a byte
offset from the current stack pointer. -/
def Masm.address_at_sp (m : Masm) (offset : Nat) : Address :=
  { base := m.sp_offset, offset := offset }

/-- Modelled from the spec: store a register's contents to an address at
a given operand size. -/
def Masm.store (m : Masm) (src : Nat) (dst : Address) (size : OperandSize) : Masm :=
  { m with instrs := m.instrs ++ [Instr.store src dst size] }

/-- Modelled from the spec: emit the call instruction. -/
def Masm.call (m : Masm) (k : CalleeKind) : Masm :=
  { m with instrs := m.instrs ++ [Instr.call k] }

/-- Modelled from the spec: the register allocator, as the set (list) of
currently free general-purpose registers. -/
structure Regalloc where
  free_gprs : List Nat
deriving DecidableEq, Repr

/-- Modelled from the spec: is the given register free? -/
def Regalloc.gpr_available (ra : Regalloc) (r : Nat) : Bool :=
  decide (r ∈ ra.free_gprs)

/-- Modelled from the spec: return a register to the free set (done when
a register-resident value is spilled or consumed). -/
def Regalloc.free_gpr (ra : Regalloc) (r : Nat) : Regalloc :=
  { free_gprs := r :: ra.free_gprs }

/-- Modelled from the spec: mark a register as owned, removing it from
the free set. -/
def Regalloc.allocate (ra : Regalloc) (r : Nat) : Regalloc :=
  { free_gprs := ra.free_gprs.filter (fun x => x != r) }

/-- Modelled from the spec: the code-generation context — the abstract
value stack (bottom of the operand stack first, top last) and the
register allocator. -/
structure CodeGenContext where
  stack : List Val
  regalloc : Regalloc
deriving DecidableEq, Repr

/-- Modelled from the spec: the result of spilling a segment of the
value stack — the rewritten segment, the updated backend and allocator,
and the two counts returned by the spill operation. -/
structure SpillOut where
  vals : List Val
  masm : Masm
  regalloc : Regalloc
  spilled : Nat
  memory : Nat
deriving DecidableEq, Repr

/-- Modelled from the spec: spill every register-resident entry of a
segment of the value stack to memory (one machine push per entry, each
entry replaced in place by a memory-resident value at the pushed
offset, its register returned to the allocator), counting the entries
spilled and the entries that were already memory-resident. -/
def spillVals (word_bytes : Nat) : List Val → Masm → Regalloc → SpillOut
  | [], m, ra => ⟨[], m, ra, 0, 0⟩
  | Val.reg r :: rest, m, ra =>
    let m1 := m.push r word_bytes
    let out := spillVals word_bytes rest m1 (ra.free_gpr r)
    ⟨Val.mem m1.sp_offset :: out.vals, out.masm, out.regalloc, out.spilled + 1, out.memory⟩
  | Val.mem offset :: rest, m, ra =>
    let out := spillVals word_bytes rest m ra
    ⟨Val.mem offset :: out.vals, out.masm, out.regalloc, out.spilled, out.memory + 1⟩

/-- Modelled from the spec: the context operation that spills all
register-resident entries within the index range `[lo, hi)` of the value
stack and returns the pair (count of registers spilled, count of entries
already memory-resident). -/
def CodeGenContext.spill_regs_and_count_memory_in
    (ctx : CodeGenContext) (masm : Masm) (word_bytes : Nat) (lo hi : Nat) :
    CodeGenContext × Masm × Nat × Nat :=
  let seg := (ctx.stack.take hi).drop lo
  let out := spillVals word_bytes seg masm ctx.regalloc
  ({ stack := ctx.stack.take lo ++ out.vals ++ ctx.stack.drop hi,
     regalloc := out.regalloc },
   out.masm, out.spilled, out.memory)

/-- Modelled from the spec: move an arbitrary value into a specific
register at a specific operand size, performing any load or move needed
(recorded in the trace) and updating allocator bookkeeping (a consumed
register-resident source returns its register to the free set). -/
def CodeGenContext.move_val_to_reg
    (ctx : CodeGenContext) (v : Val) (dst : Nat) (masm : Masm) (size : OperandSize) :
    CodeGenContext × Masm :=
  ({ ctx with
      regalloc :=
        match v with
        | Val.reg src => ctx.regalloc.free_gpr src
        | Val.mem _ => ctx.regalloc },
   { masm with instrs := masm.instrs ++ [Instr.moveValToReg v dst size] })

/-- Modelled from the spec: remove the top `n` entries of the value
stack. -/
def CodeGenContext.drop_last (ctx : CodeGenContext) (n : Nat) : CodeGenContext :=
  { ctx with stack := ctx.stack.take (ctx.stack.length - n) }

/-- Modelled from the spec: acquire a specific register from the
allocator, marking it as owned and returning it. -/
def CodeGenContext.gpr (ctx : CodeGenContext) (r : Nat) (_masm : Masm) :
    CodeGenContext × Nat :=
  ({ ctx with regalloc := ctx.regalloc.allocate r }, r)

/-- Modelled from the spec: peek at the top `n` entries of the value
stack, in order from deepest to shallowest (fewer if the stack is
shorter). -/
def peekn (stack : List Val) (n : Nat) : List Val :=
  stack.drop (stack.length - n)

/-- All the information needed to emit a function call, translated from
the `FnCall` struct in `call.rs`. -/
structure FnCall where
  total_stack_space : Nat
  arg_stack_space : Nat
  abi_sig : ABISig
  sp_offset_at_callsite : Nat
deriving DecidableEq, Repr

/-- The spill phase of `FnCall::new` (the `match callee_params.len()`
block): spill the whole stack when the signature takes no parameters,
otherwise assert that the stack holds at least as many entries as there
are parameters, spill the partition below the arguments, then spill and
count the top argument partition.  The construction-time assertion
failure is `none`. -/
def spillPhase (abi : ABI) (callee_sig : ABISig) (context : CodeGenContext) (masm : Masm) :
    Option (Nat × Nat × CodeGenContext × Masm) :=
  match callee_sig.params with
  | [] =>
    let r := context.spill_regs_and_count_memory_in masm abi.word_bytes 0 context.stack.length
    some (0, 0, r.1, r.2.1)
  | _ :: _ =>
    if context.stack.length ≥ callee_sig.params.length then
      let part := context.stack.length - callee_sig.params.length
      let r1 := context.spill_regs_and_count_memory_in masm abi.word_bytes 0 part
      let r2 := r1.1.spill_regs_and_count_memory_in r1.2.1 abi.word_bytes part r1.1.stack.length
      some (r2.2.2.1, r2.2.2.2, r2.1, r2.2.1)
    else none

/-- Allocate and set up a new function call, translated from
`FnCall::new`: snapshot the stack-pointer offset, spill (and count) per
`spillPhase`, compute the frame-adjustment delta from the post-spill
stack-pointer offset, and derive `arg_stack_space` and
`total_stack_space`. -/
def FnCall.new (abi : ABI) (callee_sig : ABISig) (context : CodeGenContext) (masm : Masm) :
    Option (FnCall × CodeGenContext × Masm) :=
  let sp_offset_at_callsite := masm.sp_offset
  match spillPhase abi callee_sig context masm with
  | none => none
  | some r =>
    let spilled_regs := r.1
    let memory_values := r.2.1
    let masm1 := r.2.2.2
    let delta := calculate_frame_adjustment masm1.sp_offset abi.arg_base_offset
      abi.call_stack_align
    let arg_stack_space := align_to (callee_sig.stack_bytes + delta) abi.call_stack_align
    some ({ abi_sig := callee_sig,
            arg_stack_space := arg_stack_space,
            total_stack_space :=
              spilled_regs * abi.word_bytes + memory_values * abi.word_bytes + arg_stack_space,
            sp_offset_at_callsite := sp_offset_at_callsite },
          r.2.2.1, masm1)

/-- The loop body of `FnCall::assign_args`: walk the signature's
argument locations paired with the peeked stack values; a register
location receives the value directly, a stack location goes through the
scratch register and a store to the address at the declared offset from
the current stack pointer.  Running out of stack values is the fatal
`expected stack value for function argument` condition, modelled as
`none`. -/
def assignLoop (scratch : Nat) :
    List ABIArg → List Val → CodeGenContext → Masm → Option (CodeGenContext × Masm)
  | [], _, ctx, masm => some (ctx, masm)
  | _ :: _, [], _, _ => none
  | ABIArg.Reg ty reg :: rest, val :: vals, ctx, masm =>
    let r := ctx.move_val_to_reg val reg masm ty.operandSize
    assignLoop scratch rest vals r.1 r.2
  | ABIArg.Stack ty offset :: rest, val :: vals, ctx, masm =>
    let addr := masm.address_at_sp offset
    let size := ty.operandSize
    let r := ctx.move_val_to_reg val scratch masm size
    let masm2 := r.2.store scratch addr size
    assignLoop scratch rest vals r.1 masm2

/-- Assign the arguments of the call, translated from
`FnCall::assign_args`. -/
def FnCall.assign_args (fc : FnCall) (context : CodeGenContext) (masm : Masm)
    (scratch : Nat) : Option (CodeGenContext × Masm) :=
  assignLoop scratch fc.abi_sig.params (peekn context.stack fc.abi_sig.params.length)
    context masm

/-- Handle the call's result, translated from `FnCall::handle_result`:
nothing for a void result (the source's early `is_void` return is the
void arm here); for a register result, assert that the destination
register is free (fatal otherwise, modelled as `none`), acquire it as
owned, and push a register-resident value. -/
def FnCall.handle_result (fc : FnCall) (context : CodeGenContext) (masm : Masm) :
    Option (CodeGenContext × Masm) :=
  match fc.abi_sig.result with
  | ABIResult.void => some (context, masm)
  | ABIResult.Reg _ reg =>
    if context.regalloc.gpr_available reg then
      let r := context.gpr reg masm
      some ({ r.1 with stack := r.1.stack ++ [Val.reg r.2] }, masm)
    else none

/-- Emit the function call, translated from `FnCall::emit`: reserve the
argument stack space, assign the arguments, emit the direct call, free
the total stack space, drop the consumed argument entries, assert that
the stack-pointer offset did not end up past the callsite snapshot
(fatal otherwise, modelled as `none`), and handle the result. -/
def FnCall.emit (fc : FnCall) (abi : ABI) (masm : Masm) (context : CodeGenContext)
    (callee : Nat) : Option (CodeGenContext × Masm) :=
  let masm1 := masm.reserve_stack fc.arg_stack_space
  match fc.assign_args context masm1 abi.scratch_reg with
  | none => none
  | some r =>
    let masm3 := r.2.call (CalleeKind.Direct callee)
    let masm4 := masm3.free_stack fc.total_stack_space
    let ctx2 := r.1.drop_last fc.abi_sig.params.length
    if fc.sp_offset_at_callsite ≥ masm4.sp_offset then
      fc.handle_result ctx2 masm4
    else none

/-- Follows the spec's words (for comparison with `assignLoop`): the
instruction sequence argument assignment must emit — for each register
location, one move of the paired value into exactly that register at its
declared size; for each stack location, one move of the paired value
into the scratch register followed by one store from the scratch
register to the address at exactly the declared offset from the
stack-pointer offset current at entry, at the declared size. -/
def specArgMoves (scratch spEntry : Nat) : List ABIArg → List Val → List Instr
  | [], _ => []
  | _ :: _, [] => []
  | ABIArg.Reg ty reg :: rest, val :: vals =>
    Instr.moveValToReg val reg ty.operandSize :: specArgMoves scratch spEntry rest vals
  | ABIArg.Stack ty offset :: rest, val :: vals =>
    Instr.moveValToReg val scratch ty.operandSize ::
      Instr.store scratch ⟨spEntry, offset⟩ ty.operandSize ::
        specArgMoves scratch spEntry rest vals

/-- A concrete calling convention for witnesses: 8-byte words, 16-byte
call-site alignment, stack arguments based at the stack pointer, and
register 11 as the scratch register. -/
def exAbi : ABI := ⟨8, 16, 0, 11⟩

/-- A concrete one-register-parameter, void-result signature. -/
def exSigA : ABISig := ⟨[ABIArg.Reg WasmType.I64 0], ABIResult.void, 0⟩

/-- A concrete context whose value stack holds two register-resident
entries (one below the argument partition, one inside it). -/
def exCtxA : CodeGenContext := ⟨[Val.reg 1, Val.reg 2], ⟨[]⟩⟩

/-- A concrete backend state with stack-pointer offset zero and an empty
trace. -/
def exMasm0 : Masm := ⟨0, []⟩

/-- The concrete scenario-B signature: five parameters, two in registers
and three on the stack at offsets 0, 8 and 16, so 24 raw stack-argument
bytes. -/
def exSigB : ABISig :=
  ⟨[ABIArg.Reg WasmType.I64 0, ABIArg.Reg WasmType.I64 1,
    ABIArg.Stack WasmType.I64 0, ABIArg.Stack WasmType.I64 8,
    ABIArg.Stack WasmType.I64 16],
   ABIResult.void, 24⟩

/-- The concrete scenario-B context: all five argument entries are
memory-resident. -/
def exCtxB : CodeGenContext :=
  ⟨[Val.mem 8, Val.mem 16, Val.mem 24, Val.mem 32, Val.mem 40], ⟨[]⟩⟩

/-- The concrete scenario-B backend state: 48 bytes already on the
machine stack backing the five memory values. -/
def exMasmB : Masm := ⟨48, []⟩

/-- A concrete one-register-parameter signature whose result lands in
register 0. -/
def exSigR : ABISig := ⟨[ABIArg.Reg WasmType.I64 0], ABIResult.Reg WasmType.I64 0, 0⟩

/-- A concrete context with a single memory-resident entry and register
0 free. -/
def exCtxR : CodeGenContext := ⟨[Val.mem 8], ⟨[0]⟩⟩

/-- A concrete backend state with 8 bytes on the machine stack. -/
def exMasmR : Masm := ⟨8, []⟩

/-- A concrete zero-parameter, void-result signature. -/
def exSig0 : ABISig := ⟨[], ABIResult.void, 0⟩

/-- Spilling a segment preserves its length. -/
theorem spillVals_length (w : Nat) (vs : List Val) (m : Masm) (ra : Regalloc) :
    (spillVals w vs m ra).vals.length = vs.length := by
  induction vs generalizing m ra with
  | nil => simp [spillVals]
  | cons v rest ih => cases v <;> simp [spillVals, ih]

/-- The spilled-register count returned by a spill is the number of
register-resident entries of the input segment. -/
theorem spillVals_spilled (w : Nat) (vs : List Val) (m : Masm) (ra : Regalloc) :
    (spillVals w vs m ra).spilled = vs.countP Val.isReg := by
  induction vs generalizing m ra with
  | nil => simp [spillVals]
  | cons v rest ih => cases v <;> simp [spillVals, ih, List.countP_cons, Val.isReg]

/-- The memory-value count returned by a spill is the number of entries
of the input segment that were already memory-resident. -/
theorem spillVals_memory (w : Nat) (vs : List Val) (m : Masm) (ra : Regalloc) :
    (spillVals w vs m ra).memory = vs.countP Val.isMem := by
  induction vs generalizing m ra with
  | nil => simp [spillVals]
  | cons v rest ih => cases v <;> simp [spillVals, ih, List.countP_cons, Val.isMem]

/-- Each spilled register pushes one word: after spilling a segment, the
stack-pointer offset has grown by the word size times the number of
register-resident entries of the segment. -/
theorem spillVals_sp (w : Nat) (vs : List Val) (m : Masm) (ra : Regalloc) :
    (spillVals w vs m ra).masm.sp_offset
      = m.sp_offset + w * vs.countP Val.isReg := by
  induction vs generalizing m ra with
  | nil => simp [spillVals]
  | cons v rest ih =>
    cases v with
    | reg r =>
      simp [spillVals, ih, Masm.push, List.countP_cons, Val.isReg]
      ring
    | mem offset => simp [spillVals, ih, List.countP_cons, Val.isReg]

/-- After a spill, every entry of the rewritten segment is
memory-resident. -/
theorem spillVals_isMem (w : Nat) (vs : List Val) (m : Masm) (ra : Regalloc) :
    ∀ v ∈ (spillVals w vs m ra).vals, v.isMem = true := by
  induction vs generalizing m ra with
  | nil => simp [spillVals]
  | cons v rest ih =>
    cases v <;> simp [spillVals, Val.isMem] <;> intro a ha <;> exact ih _ _ a ha

/-- Characterisation of the spill phase of construction: on success, the
returned counts are the register/memory counts of the original top
argument partition, the stack-pointer offset has grown by one word per
register-resident entry of the whole original stack, the value stack
keeps its length and has become entirely memory-resident, and the stack
held at least as many entries as there are parameters. -/
theorem spillPhase_spec (abi : ABI) (sig : ABISig) (ctx : CodeGenContext) (masm : Masm)
    (s mv : Nat) (ctx' : CodeGenContext) (masm' : Masm)
    (h : spillPhase abi sig ctx masm = some (s, mv, ctx', masm')) :
    s = (ctx.stack.drop (ctx.stack.length - sig.params.length)).countP Val.isReg ∧
    mv = (ctx.stack.drop (ctx.stack.length - sig.params.length)).countP Val.isMem ∧
    masm'.sp_offset = masm.sp_offset + abi.word_bytes * ctx.stack.countP Val.isReg ∧
    ctx'.stack.length = ctx.stack.length ∧
    (∀ v ∈ ctx'.stack, v.isMem = true) ∧
    sig.params.length ≤ ctx.stack.length := by
  cases hp : sig.params with
  | nil =>
    simp only [spillPhase, hp, CodeGenContext.spill_regs_and_count_memory_in,
      List.take_length, List.drop_zero, List.take_zero, List.nil_append,
      List.drop_length, List.append_nil, Option.some.injEq, Prod.mk.injEq] at h
    obtain ⟨hs, hmv, hctx, hmasm⟩ := h
    subst hs; subst hmv; subst hctx; subst hmasm
    refine ⟨by simp, by simp, spillVals_sp _ _ _ _, spillVals_length _ _ _ _,
      spillVals_isMem _ _ _ _, by simp⟩
  | cons a rest =>
    simp only [spillPhase, hp] at h
    by_cases hlen : ctx.stack.length ≥ (a :: rest).length
    case neg => rw [if_neg hlen] at h; cases h
    case pos =>
      rw [if_pos hlen] at h
      simp only [CodeGenContext.spill_regs_and_count_memory_in, List.drop_zero,
        List.take_zero, List.nil_append, List.take_length, List.drop_length,
        List.append_nil, Option.some.injEq, Prod.mk.injEq] at h
      obtain ⟨hs, hmv, hctx, hmasm⟩ := h
      subst hs; subst hmv; subst hctx; subst hmasm
      have hv1 : (spillVals abi.word_bytes
          (ctx.stack.take (ctx.stack.length - (a :: rest).length)) masm
          ctx.regalloc).vals.length = ctx.stack.length - (a :: rest).length := by
        rw [spillVals_length, List.length_take]
        omega
      have hsplit : ctx.stack.countP Val.isReg
          = (ctx.stack.take (ctx.stack.length - (a :: rest).length)).countP Val.isReg
            + (ctx.stack.drop (ctx.stack.length - (a :: rest).length)).countP Val.isReg := by
        rw [← List.countP_append, List.take_append_drop]
      refine ⟨?_, ?_, ?_, ?_, ?_, hlen⟩
      · rw [spillVals_spilled, List.drop_left' hv1]
      · rw [spillVals_memory, List.drop_left' hv1]
      · rw [spillVals_sp, spillVals_sp, List.drop_left' hv1, hsplit]
        ring
      · simp only [List.take_left' hv1, List.drop_left' hv1, List.length_append,
          spillVals_length, List.length_take, List.length_drop]
        omega
      · intro v hvmem
        simp only [List.take_left' hv1, List.mem_append] at hvmem
        rcases hvmem with hvmem | hvmem
        · exact spillVals_isMem _ _ _ _ v hvmem
        · exact spillVals_isMem _ _ _ _ v hvmem

/-- C1: construction accounting postcondition.  Whenever `FnCall.new`
succeeds, it snapshots the callsite stack-pointer offset, computes
`arg_stack_space` as the raw stack-argument byte size plus the
frame-adjustment delta aligned up to the call-stack alignment — where
the delta is taken from the stack-pointer offset as it stands after the
spills (one word pushed per register-resident entry of the whole value
stack) — and computes `total_stack_space` as (spilled registers +
memory values) times the word size plus `arg_stack_space`, with both
counts taken only over the top-`k` argument partition of the original
value stack. -/
theorem FnCall.new_accounting (abi : ABI) (sig : ABISig) (ctx : CodeGenContext)
    (masm : Masm) (fc : FnCall) (ctx' : CodeGenContext) (masm' : Masm)
    (hnew : FnCall.new abi sig ctx masm = some (fc, ctx', masm')) :
    fc.sp_offset_at_callsite = masm.sp_offset ∧
    masm'.sp_offset = masm.sp_offset + abi.word_bytes * ctx.stack.countP Val.isReg ∧
    fc.arg_stack_space
      = align_to (sig.stack_bytes
          + calculate_frame_adjustment masm'.sp_offset abi.arg_base_offset
              abi.call_stack_align) abi.call_stack_align ∧
    fc.total_stack_space
      = ((ctx.stack.drop (ctx.stack.length - sig.params.length)).countP Val.isReg
          + (ctx.stack.drop (ctx.stack.length - sig.params.length)).countP Val.isMem)
          * abi.word_bytes
        + fc.arg_stack_space := by
  rcases hsp : spillPhase abi sig ctx masm with _ | ⟨⟨s, mv, ctx1, masm1⟩⟩
  · rw [FnCall.new.eq_def, hsp] at hnew
    cases hnew
  · rw [FnCall.new.eq_def, hsp] at hnew
    simp only [Option.some.injEq, Prod.mk.injEq] at hnew
    obtain ⟨hfc, hctx, hmasm⟩ := hnew
    subst hfc; subst hctx; subst hmasm
    obtain ⟨hs, hmv, hsp3, _, _, _⟩ := spillPhase_spec abi sig ctx masm s mv ctx1 masm1 hsp
    subst hs; subst hmv
    refine ⟨rfl, hsp3, rfl, ?_⟩
    simp only [Nat.add_mul]

/-- C1 witness: the accounting postcondition instantiated at a concrete
two-entry stack with a one-register-parameter signature. -/
theorem FnCall.new_accounting_instance :
    (⟨8, 0, exSigA, 0⟩ : FnCall).sp_offset_at_callsite = exMasm0.sp_offset ∧
    (⟨16, [Instr.push 1, Instr.push 2]⟩ : Masm).sp_offset
      = exMasm0.sp_offset + exAbi.word_bytes * exCtxA.stack.countP Val.isReg ∧
    (⟨8, 0, exSigA, 0⟩ : FnCall).arg_stack_space
      = align_to (exSigA.stack_bytes
          + calculate_frame_adjustment
              (⟨16, [Instr.push 1, Instr.push 2]⟩ : Masm).sp_offset
              exAbi.arg_base_offset exAbi.call_stack_align) exAbi.call_stack_align ∧
    (⟨8, 0, exSigA, 0⟩ : FnCall).total_stack_space
      = ((exCtxA.stack.drop (exCtxA.stack.length - exSigA.params.length)).countP Val.isReg
          + (exCtxA.stack.drop (exCtxA.stack.length - exSigA.params.length)).countP Val.isMem)
          * exAbi.word_bytes
        + (⟨8, 0, exSigA, 0⟩ : FnCall).arg_stack_space :=
  FnCall.new_accounting exAbi exSigA exCtxA exMasm0 ⟨8, 0, exSigA, 0⟩
    ⟨[Val.mem 8, Val.mem 16], ⟨[2, 1]⟩⟩ ⟨16, [Instr.push 1, Instr.push 2]⟩ (by decide)

/-- C5: space-accounting lower bound.  Whenever `FnCall.new` succeeds,
the computed `total_stack_space` is at least `arg_stack_space`, and
`arg_stack_space` is a multiple of the target's call-stack alignment. -/
theorem FnCall.new_space_lower_bound (abi : ABI) (sig : ABISig) (ctx : CodeGenContext)
    (masm : Masm) (fc : FnCall) (ctx' : CodeGenContext) (masm' : Masm)
    (hnew : FnCall.new abi sig ctx masm = some (fc, ctx', masm')) :
    fc.arg_stack_space ≤ fc.total_stack_space ∧
    abi.call_stack_align ∣ fc.arg_stack_space := by
  rcases hsp : spillPhase abi sig ctx masm with _ | ⟨⟨s, mv, ctx1, masm1⟩⟩
  · rw [FnCall.new.eq_def, hsp] at hnew
    cases hnew
  · rw [FnCall.new.eq_def, hsp] at hnew
    simp only [Option.some.injEq, Prod.mk.injEq] at hnew
    obtain ⟨hfc, hctx, hmasm⟩ := hnew
    subst hfc
    constructor
    · exact Nat.le_add_left _ _
    · simp only [align_to]
      exact dvd_mul_left _ _

/-- C5 witness: the lower bound instantiated at a concrete input, where
`arg_stack_space = 0` and `total_stack_space = 8`. -/
theorem FnCall.new_space_lower_bound_instance :
    (⟨8, 0, exSigA, 0⟩ : FnCall).arg_stack_space
      ≤ (⟨8, 0, exSigA, 0⟩ : FnCall).total_stack_space ∧
    exAbi.call_stack_align ∣ (⟨8, 0, exSigA, 0⟩ : FnCall).arg_stack_space :=
  FnCall.new_space_lower_bound exAbi exSigA exCtxA exMasm0 ⟨8, 0, exSigA, 0⟩
    ⟨[Val.mem 8, Val.mem 16], ⟨[2, 1]⟩⟩ ⟨16, [Instr.push 1, Instr.push 2]⟩ (by decide)

/-- C6: zero-parameter edge case.  For a signature with no parameters
(hence no stack-passed argument bytes), construction spills the entire
value stack as the "everything below" partition (every entry ends up
memory-resident, the stack keeps its length), the hard-coded counts
contribute nothing, so `total_stack_space` equals `arg_stack_space`
exactly and `arg_stack_space` is just the frame-adjustment padding
aligned up. -/
theorem FnCall.new_zero_params (abi : ABI) (sig : ABISig) (ctx : CodeGenContext)
    (masm : Masm) (fc : FnCall) (ctx' : CodeGenContext) (masm' : Masm)
    (hparams : sig.params = []) (hbytes : sig.stack_bytes = 0)
    (hnew : FnCall.new abi sig ctx masm = some (fc, ctx', masm')) :
    fc.total_stack_space = fc.arg_stack_space ∧
    fc.arg_stack_space
      = align_to (calculate_frame_adjustment masm'.sp_offset abi.arg_base_offset
          abi.call_stack_align) abi.call_stack_align ∧
    ctx'.stack.length = ctx.stack.length ∧
    (∀ v ∈ ctx'.stack, v.isMem = true) := by
  rcases hsp : spillPhase abi sig ctx masm with _ | ⟨⟨s, mv, ctx1, masm1⟩⟩
  · rw [FnCall.new.eq_def, hsp] at hnew
    cases hnew
  · rw [FnCall.new.eq_def, hsp] at hnew
    simp only [Option.some.injEq, Prod.mk.injEq] at hnew
    obtain ⟨hfc, hctx, hmasm⟩ := hnew
    subst hfc; subst hctx; subst hmasm
    obtain ⟨hs, hmv, _, hlen, hmem, _⟩ := spillPhase_spec abi sig ctx masm s mv ctx1 masm1 hsp
    rw [hparams] at hs hmv
    simp only [List.length_nil, Nat.sub_zero, List.drop_length, List.countP_nil] at hs hmv
    subst hs; subst hmv
    refine ⟨by simp, ?_, hlen, hmem⟩
    simp [hbytes]

/-- C6 witness: the zero-parameter case instantiated at a concrete
two-entry, all-register stack. -/
theorem FnCall.new_zero_params_instance :
    (⟨0, 0, exSig0, 0⟩ : FnCall).total_stack_space
      = (⟨0, 0, exSig0, 0⟩ : FnCall).arg_stack_space ∧
    (⟨0, 0, exSig0, 0⟩ : FnCall).arg_stack_space
      = align_to (calculate_frame_adjustment
          (⟨16, [Instr.push 1, Instr.push 2]⟩ : Masm).sp_offset
          exAbi.arg_base_offset exAbi.call_stack_align) exAbi.call_stack_align ∧
    (⟨[Val.mem 8, Val.mem 16], ⟨[2, 1]⟩⟩ : CodeGenContext).stack.length
      = exCtxA.stack.length ∧
    (∀ v ∈ (⟨[Val.mem 8, Val.mem 16], ⟨[2, 1]⟩⟩ : CodeGenContext).stack,
      v.isMem = true) :=
  FnCall.new_zero_params exAbi exSig0 exCtxA exMasm0 ⟨0, 0, exSig0, 0⟩
    ⟨[Val.mem 8, Val.mem 16], ⟨[2, 1]⟩⟩ ⟨16, [Instr.push 1, Instr.push 2]⟩
    (by decide) (by decide) (by decide)

/-- C10: implicit construction-time arity assertion.  For a signature
with at least one parameter and a value stack shorter than the
parameter count, `FnCall.new` itself fails fatally (modelled as `none`)
at construction, before anything is emitted. -/
theorem FnCall.new_short_stack (abi : ABI) (sig : ABISig) (ctx : CodeGenContext)
    (masm : Masm) (hne : sig.params ≠ [])
    (hlt : ctx.stack.length < sig.params.length) :
    FnCall.new abi sig ctx masm = none := by
  cases hp : sig.params with
  | nil => exact absurd hp hne
  | cons a rest =>
    rw [hp] at hlt
    rw [FnCall.new.eq_def]
    simp only [spillPhase, hp]
    rw [if_neg (by omega)]

/-- C10 witness: constructing a call for a one-parameter signature on an
empty value stack fails at construction time. -/
theorem FnCall.new_short_stack_instance :
    FnCall.new exAbi exSigA ⟨[], ⟨[]⟩⟩ exMasm0 = none :=
  FnCall.new_short_stack exAbi exSigA ⟨[], ⟨[]⟩⟩ exMasm0 (by decide) (by decide)

/-- Argument assignment never touches the value stack: it only reads the
peeked entries. -/
theorem assignLoop_stack (scratch : Nat) (args : List ABIArg) (vals : List Val)
    (ctx : CodeGenContext) (masm : Masm) (ctx1 : CodeGenContext) (masm1 : Masm)
    (h : assignLoop scratch args vals ctx masm = some (ctx1, masm1)) :
    ctx1.stack = ctx.stack := by
  induction args generalizing vals ctx masm with
  | nil =>
    simp only [assignLoop, Option.some.injEq, Prod.mk.injEq] at h
    rw [← h.1]
  | cons a rest ih =>
    cases vals with
    | nil => simp [assignLoop] at h
    | cons v vs =>
      cases a with
      | Reg ty reg =>
        simp only [assignLoop] at h
        exact ih vs (ctx.move_val_to_reg v reg masm ty.operandSize).1
          (ctx.move_val_to_reg v reg masm ty.operandSize).2 h
      | Stack ty offset =>
        simp only [assignLoop] at h
        exact ih vs (ctx.move_val_to_reg v scratch masm ty.operandSize).1
          ((ctx.move_val_to_reg v scratch masm ty.operandSize).2.store scratch
            (masm.address_at_sp offset) ty.operandSize) h

/-- Argument assignment leaves the stack-pointer offset unchanged and
appends exactly the spec-mandated move/store sequence to the trace. -/
theorem assignLoop_trace (scratch : Nat) (args : List ABIArg) (vals : List Val)
    (ctx : CodeGenContext) (masm : Masm) (ctx1 : CodeGenContext) (masm1 : Masm)
    (h : assignLoop scratch args vals ctx masm = some (ctx1, masm1)) :
    masm1.sp_offset = masm.sp_offset ∧
    masm1.instrs = masm.instrs ++ specArgMoves scratch masm.sp_offset args vals := by
  induction args generalizing vals ctx masm with
  | nil =>
    simp only [assignLoop, Option.some.injEq, Prod.mk.injEq] at h
    rw [← h.2]
    simp [specArgMoves]
  | cons a rest ih =>
    cases vals with
    | nil => simp [assignLoop] at h
    | cons v vs =>
      cases a with
      | Reg ty reg =>
        simp only [assignLoop] at h
        obtain ⟨hsp, hin⟩ := ih vs _ _ h
        refine ⟨hsp, ?_⟩
        rw [hin]
        simp [specArgMoves, CodeGenContext.move_val_to_reg]
      | Stack ty offset =>
        simp only [assignLoop] at h
        obtain ⟨hsp, hin⟩ := ih vs _ _ h
        refine ⟨hsp, ?_⟩
        rw [hin]
        simp [specArgMoves, CodeGenContext.move_val_to_reg, Masm.store,
          Masm.address_at_sp]

/-- Every store in the spec-mandated argument sequence has the scratch
register as its source (never memory) and targets an address based at
the entry stack-pointer offset. -/
theorem specArgMoves_store_src (scratch spEntry : Nat) (args : List ABIArg)
    (vals : List Val) :
    ∀ src a sz, Instr.store src a sz ∈ specArgMoves scratch spEntry args vals
      → src = scratch ∧ a.base = spEntry := by
  induction args generalizing vals with
  | nil => simp [specArgMoves]
  | cons ag rest ih =>
    cases vals with
    | nil => cases ag <;> simp [specArgMoves]
    | cons v vs =>
      cases ag with
      | Reg ty reg =>
        intro src a sz hm
        simp only [specArgMoves, List.mem_cons] at hm
        rcases hm with hm | hm
        · simp at hm
        · exact ih vs src a sz hm
      | Stack ty offset =>
        intro src a sz hm
        simp only [specArgMoves, List.mem_cons] at hm
        rcases hm with hm | hm | hm
        · simp at hm
        · simp only [Instr.store.injEq] at hm
          exact ⟨hm.1, by rw [hm.2.1]⟩
        · exact ih vs src a sz hm

/-- C4: argument placement correctness.  When `FnCall.assign_args`
succeeds, the emitted trace is exactly the spec-mandated sequence: each
register-located argument gets one move of its paired value into
exactly the declared register at the declared size; each stack-located
argument gets a move of its value into the scratch register followed by
a store from the scratch register to the address at exactly the
declared offset from the current stack pointer at the declared size; no
store draws from anywhere but the scratch register (never a direct
memory-to-memory transfer). -/
theorem FnCall.assign_args_placement (fc : FnCall) (ctx : CodeGenContext)
    (masm : Masm) (scratch : Nat) (ctx1 : CodeGenContext) (masm1 : Masm)
    (h : fc.assign_args ctx masm scratch = some (ctx1, masm1)) :
    masm1.sp_offset = masm.sp_offset ∧
    masm1.instrs = masm.instrs
      ++ specArgMoves scratch masm.sp_offset fc.abi_sig.params
          (peekn ctx.stack fc.abi_sig.params.length) ∧
    (∀ src a sz, Instr.store src a sz
        ∈ specArgMoves scratch masm.sp_offset fc.abi_sig.params
            (peekn ctx.stack fc.abi_sig.params.length)
      → src = scratch ∧ a.base = masm.sp_offset) := by
  simp only [FnCall.assign_args] at h
  obtain ⟨hsp, hin⟩ := assignLoop_trace scratch fc.abi_sig.params
    (peekn ctx.stack fc.abi_sig.params.length) ctx masm ctx1 masm1 h
  exact ⟨hsp, hin, specArgMoves_store_src _ _ _ _⟩

/-- C4 witness: the placement property instantiated at the concrete
scenario-B signature (two register parameters, three stack parameters)
with all five values memory-resident. -/
theorem FnCall.assign_args_placement_instance :
    (⟨80, [Instr.moveValToReg (Val.mem 8) 0 OperandSize.S64,
           Instr.moveValToReg (Val.mem 16) 1 OperandSize.S64,
           Instr.moveValToReg (Val.mem 24) 11 OperandSize.S64,
           Instr.store 11 ⟨80, 0⟩ OperandSize.S64,
           Instr.moveValToReg (Val.mem 32) 11 OperandSize.S64,
           Instr.store 11 ⟨80, 8⟩ OperandSize.S64,
           Instr.moveValToReg (Val.mem 40) 11 OperandSize.S64,
           Instr.store 11 ⟨80, 16⟩ OperandSize.S64]⟩ : Masm).sp_offset
      = (⟨80, []⟩ : Masm).sp_offset ∧
    (⟨80, [Instr.moveValToReg (Val.mem 8) 0 OperandSize.S64,
           Instr.moveValToReg (Val.mem 16) 1 OperandSize.S64,
           Instr.moveValToReg (Val.mem 24) 11 OperandSize.S64,
           Instr.store 11 ⟨80, 0⟩ OperandSize.S64,
           Instr.moveValToReg (Val.mem 32) 11 OperandSize.S64,
           Instr.store 11 ⟨80, 8⟩ OperandSize.S64,
           Instr.moveValToReg (Val.mem 40) 11 OperandSize.S64,
           Instr.store 11 ⟨80, 16⟩ OperandSize.S64]⟩ : Masm).instrs
      = (⟨80, []⟩ : Masm).instrs
        ++ specArgMoves 11 (⟨80, []⟩ : Masm).sp_offset
            (⟨72, 32, exSigB, 48⟩ : FnCall).abi_sig.params
            (peekn exCtxB.stack (⟨72, 32, exSigB, 48⟩ : FnCall).abi_sig.params.length) ∧
    (∀ src a sz, Instr.store src a sz
        ∈ specArgMoves 11 (⟨80, []⟩ : Masm).sp_offset
            (⟨72, 32, exSigB, 48⟩ : FnCall).abi_sig.params
            (peekn exCtxB.stack (⟨72, 32, exSigB, 48⟩ : FnCall).abi_sig.params.length)
      → src = 11 ∧ a.base = (⟨80, []⟩ : Masm).sp_offset) :=
  FnCall.assign_args_placement ⟨72, 32, exSigB, 48⟩ exCtxB ⟨80, []⟩ 11 exCtxB
    ⟨80, [Instr.moveValToReg (Val.mem 8) 0 OperandSize.S64,
          Instr.moveValToReg (Val.mem 16) 1 OperandSize.S64,
          Instr.moveValToReg (Val.mem 24) 11 OperandSize.S64,
          Instr.store 11 ⟨80, 0⟩ OperandSize.S64,
          Instr.moveValToReg (Val.mem 32) 11 OperandSize.S64,
          Instr.store 11 ⟨80, 8⟩ OperandSize.S64,
          Instr.moveValToReg (Val.mem 40) 11 OperandSize.S64,
          Instr.store 11 ⟨80, 16⟩ OperandSize.S64]⟩ (by decide)

/-- Walking more argument locations than there are peeked values fails
fatally. -/
theorem assignLoop_short (scratch : Nat) (args : List ABIArg) (vals : List Val)
    (ctx : CodeGenContext) (masm : Masm) (h : vals.length < args.length) :
    assignLoop scratch args vals ctx masm = none := by
  induction args generalizing vals ctx masm with
  | nil => simp at h
  | cons a rest ih =>
    cases vals with
    | nil => cases a <;> simp [assignLoop]
    | cons v vs =>
      cases a with
      | Reg ty reg =>
        simp only [assignLoop]
        exact ih vs _ _ (by simp only [List.length_cons] at h; omega)
      | Stack ty offset =>
        simp only [assignLoop]
        exact ih vs _ _ (by simp only [List.length_cons] at h; omega)

/-- C8: missing-operand fatality.  If the value stack holds fewer
entries than the signature has parameters, walking the argument
locations exhausts the peeked entries and `FnCall.assign_args` fails
fatally (modelled as `none`), with no recoverable error path. -/
theorem FnCall.assign_args_missing_operand (fc : FnCall) (ctx : CodeGenContext)
    (masm : Masm) (scratch : Nat)
    (h : ctx.stack.length < fc.abi_sig.params.length) :
    fc.assign_args ctx masm scratch = none := by
  simp only [FnCall.assign_args]
  apply assignLoop_short
  simp only [peekn, List.length_drop]
  omega

/-- C8 witness: assigning the arguments of a one-parameter call over an
empty value stack fails fatally. -/
theorem FnCall.assign_args_missing_operand_instance :
    FnCall.assign_args ⟨8, 0, exSigA, 0⟩ ⟨[], ⟨[]⟩⟩ exMasm0 11 = none :=
  FnCall.assign_args_missing_operand ⟨8, 0, exSigA, 0⟩ ⟨[], ⟨[]⟩⟩ exMasm0 11 (by decide)

/-- Acquiring a register removes it from the allocator's free set. -/
theorem Regalloc.allocate_not_available (ra : Regalloc) (r : Nat) :
    (ra.allocate r).gpr_available r = false := by
  simp [Regalloc.allocate, Regalloc.gpr_available, List.mem_filter]

/-- C7: result handling.  For a void result, `handle_result` performs no
action.  For a register result, it asserts that the destination register
is free in the allocator — a fatal condition (modelled as `none`) if it
is not — and otherwise acquires the register as owned (observably: it is
no longer reported free) and pushes exactly one new register-resident
value onto the value stack. -/
theorem FnCall.handle_result_spec (fc : FnCall) (ctx : CodeGenContext) (masm : Masm) :
    (fc.abi_sig.result.is_void = true → fc.handle_result ctx masm = some (ctx, masm)) ∧
    (∀ ty reg, fc.abi_sig.result = ABIResult.Reg ty reg →
      (ctx.regalloc.gpr_available reg = false → fc.handle_result ctx masm = none) ∧
      (ctx.regalloc.gpr_available reg = true →
        fc.handle_result ctx masm
          = some (⟨ctx.stack ++ [Val.reg reg], ctx.regalloc.allocate reg⟩, masm) ∧
        (ctx.regalloc.allocate reg).gpr_available reg = false)) := by
  constructor
  · intro hv
    cases hres : fc.abi_sig.result with
    | void => simp [FnCall.handle_result, hres]
    | Reg ty reg =>
      rw [hres] at hv
      simp [ABIResult.is_void] at hv
  · intro ty reg hres
    constructor
    · intro hna
      simp [FnCall.handle_result, hres, hna]
    · intro hav
      refine ⟨?_, Regalloc.allocate_not_available ctx.regalloc reg⟩
      simp [FnCall.handle_result, hres, hav, CodeGenContext.gpr]

/-- C7 witness: result handling instantiated at a register result with
register 0 free: the register is acquired (no longer free) and exactly
the result value is pushed. -/
theorem FnCall.handle_result_spec_instance :
    FnCall.handle_result ⟨24, 16, exSigR, 8⟩ ⟨[], ⟨[0]⟩⟩ exMasm0
      = some (⟨[] ++ [Val.reg 0], Regalloc.allocate ⟨[0]⟩ 0⟩, exMasm0) ∧
    (Regalloc.allocate ⟨[0]⟩ 0).gpr_available 0 = false :=
  ((FnCall.handle_result_spec ⟨24, 16, exSigR, 8⟩ ⟨[], ⟨[0]⟩⟩ exMasm0).2
    WasmType.I64 0 (by decide)).2 (by decide)

/-- C3: value-stack arity law.  For a call constructed by `FnCall.new`
and emitted by `FnCall.emit`, the pre-call stack had at least
`parameter_count` entries, the post-emission stack has exactly
`(pre-call length - parameter_count + (0 or 1))` entries with the `+1`
exactly when the result is non-void, and the single entry pushed for a
non-void result is register-resident (it is the last entry). -/
theorem FnCall.emit_arity (abi : ABI) (sig : ABISig) (ctx : CodeGenContext)
    (masm : Masm) (fc : FnCall) (ctx1 : CodeGenContext) (masm1 : Masm)
    (ctx2 : CodeGenContext) (masm2 : Masm) (callee : Nat)
    (hnew : FnCall.new abi sig ctx masm = some (fc, ctx1, masm1))
    (hemit : fc.emit abi masm1 ctx1 callee = some (ctx2, masm2)) :
    sig.params.length ≤ ctx.stack.length ∧
    ctx2.stack.length
      = ctx.stack.length - sig.params.length
        + (if sig.result.is_void then 0 else 1) ∧
    (sig.result.is_void = false → ∃ r, ctx2.stack.getLast? = some (Val.reg r)) := by
  rcases hsp : spillPhase abi sig ctx masm with _ | ⟨⟨s, mv, ctxA, masmA⟩⟩
  · rw [FnCall.new.eq_def, hsp] at hnew
    cases hnew
  · rw [FnCall.new.eq_def, hsp] at hnew
    simp only [Option.some.injEq, Prod.mk.injEq] at hnew
    obtain ⟨hfc, hctx1, hmasm1⟩ := hnew
    subst hfc; subst hctx1; subst hmasm1
    obtain ⟨_, _, _, hlen1, _, hk⟩ := spillPhase_spec abi sig ctx masm s mv ctxA masmA hsp
    simp only [FnCall.emit] at hemit
    split at hemit
    · cases hemit
    · rename_i r heq
      obtain ⟨ctxB, masmB⟩ := r
      simp only [FnCall.assign_args] at heq
      have hstB := assignLoop_stack _ _ _ _ _ _ _ heq
      have hl : ∀ k : Nat, (ctxB.drop_last k).stack.length = ctx.stack.length - k := by
        intro k
        simp only [CodeGenContext.drop_last, List.length_take, hstB, hlen1]
        omega
      split at hemit
      · cases hres : sig.result with
        | void =>
          simp only [FnCall.handle_result, hres, Option.some.injEq,
            Prod.mk.injEq] at hemit
          obtain ⟨hctx2, _⟩ := hemit
          subst hctx2
          refine ⟨hk, ?_, ?_⟩
          · rw [hl]
            simp [ABIResult.is_void]
          · intro hfalse
            simp [ABIResult.is_void] at hfalse
        | Reg ty reg =>
          simp only [FnCall.handle_result, hres] at hemit
          split at hemit
          · simp only [CodeGenContext.gpr, Option.some.injEq, Prod.mk.injEq] at hemit
            obtain ⟨hctx2, _⟩ := hemit
            subst hctx2
            refine ⟨hk, ?_, ?_⟩
            · simp [CodeGenContext.gpr, ABIResult.is_void, hl]
            · intro hfalse
              exact ⟨reg, by simp [CodeGenContext.gpr, List.getLast?_concat]⟩
          · cases hemit
      · cases hemit

/-- C3 witness: the arity law instantiated at a one-parameter signature
with a register result over a one-entry memory-resident stack. -/
theorem FnCall.emit_arity_instance :
    exSigR.params.length ≤ exCtxR.stack.length ∧
    (⟨[Val.reg 0], ⟨[]⟩⟩ : CodeGenContext).stack.length
      = exCtxR.stack.length - exSigR.params.length
        + (if exSigR.result.is_void then 0 else 1) ∧
    (exSigR.result.is_void = false →
      ∃ r, (⟨[Val.reg 0], ⟨[]⟩⟩ : CodeGenContext).stack.getLast? = some (Val.reg r)) :=
  FnCall.emit_arity exAbi exSigR exCtxR exMasmR ⟨24, 16, exSigR, 8⟩
    ⟨[Val.mem 8], ⟨[0]⟩⟩ ⟨8, []⟩ ⟨[Val.reg 0], ⟨[]⟩⟩
    ⟨0, [Instr.reserve 16, Instr.moveValToReg (Val.mem 8) 0 OperandSize.S64,
         Instr.call (CalleeKind.Direct 9), Instr.free 24]⟩ 9
    (by decide) (by decide)

/-- C2, evaluated at a failing input: for the concrete state whose value
stack holds a register-resident entry below the argument partition
(stack `[reg 1, reg 2]`, one register parameter, void result),
construction succeeds with callsite snapshot 0 and
`total_stack_space = 8`, argument assignment succeeds, and yet
`FnCall.emit` ends in the fatal stack-pointer assertion (modelled as
`none`): the offset after freeing `total_stack_space` is 8, not at most
the snapshot 0, because the word pushed when spilling the non-argument
register entry is not part of `total_stack_space`. -/
theorem FnCall.emit_sp_assert_violation :
    FnCall.new exAbi exSigA exCtxA exMasm0
      = some (⟨8, 0, exSigA, 0⟩, ⟨[Val.mem 8, Val.mem 16], ⟨[2, 1]⟩⟩,
              ⟨16, [Instr.push 1, Instr.push 2]⟩) ∧
    (FnCall.assign_args ⟨8, 0, exSigA, 0⟩ ⟨[Val.mem 8, Val.mem 16], ⟨[2, 1]⟩⟩
      ((⟨16, [Instr.push 1, Instr.push 2]⟩ : Masm).reserve_stack 0) 11).isSome
        = true ∧
    ((((⟨16, [Instr.push 1, Instr.push 2]⟩ : Masm).reserve_stack 0).free_stack 8).sp_offset
        = 8 ∧
      ¬ ((⟨8, 0, exSigA, 0⟩ : FnCall).sp_offset_at_callsite ≥ 8)) ∧
    FnCall.emit ⟨8, 0, exSigA, 0⟩ exAbi ⟨16, [Instr.push 1, Instr.push 2]⟩
      ⟨[Val.mem 8, Val.mem 16], ⟨[2, 1]⟩⟩ 3 = none :=
  ⟨by decide, by decide, ⟨by decide, by decide⟩, by decide⟩

/-- C9 counterexample: in concrete scenario B (five parameters, two in
registers and three on the stack, all five argument entries
memory-resident), construction counts all five memory-resident argument
entries, not three: `total_stack_space` comes out as 5 × 8 + 32 = 72,
refuting the claimed `memory_values = 3`, which would have yielded
3 × word size + `arg_stack_space` = 56. -/
theorem scenarioB_memory_values_counterexample :
    FnCall.new exAbi exSigB exCtxB exMasmB
      = some (⟨72, 32, exSigB, 48⟩, exCtxB, exMasmB) ∧
    (⟨72, 32, exSigB, 48⟩ : FnCall).total_stack_space
      ≠ 3 * exAbi.word_bytes + (⟨72, 32, exSigB, 48⟩ : FnCall).arg_stack_space :=
  ⟨by decide, by decide⟩

/-- C9 amended: in concrete scenario B the argument partition
contributes `memory_values = 5` — every one of the five memory-resident
argument entries is counted, the register-destined ones included — so
`total_stack_space` is 5 × word size + `arg_stack_space`, while
`arg_stack_space` is indeed 3 × word size plus the frame-adjustment
delta (0 at this aligned callsite), aligned up. -/
theorem scenarioB_amended_count :
    FnCall.new exAbi exSigB exCtxB exMasmB
      = some (⟨72, 32, exSigB, 48⟩, exCtxB, exMasmB) ∧
    (⟨72, 32, exSigB, 48⟩ : FnCall).total_stack_space
      = 5 * exAbi.word_bytes + (⟨72, 32, exSigB, 48⟩ : FnCall).arg_stack_space ∧
    (⟨72, 32, exSigB, 48⟩ : FnCall).arg_stack_space
      = align_to (3 * exAbi.word_bytes
          + calculate_frame_adjustment exMasmB.sp_offset exAbi.arg_base_offset
              exAbi.call_stack_align) exAbi.call_stack_align :=
  ⟨by decide, by decide, by decide⟩

end WinchCall
